import Mathlib

/-!
Verification of the schema-variant composition engine described by this
repository's guides (`src/VariantSchema.md`, the Model guide) against the
example models declared in the repository's source files.

The repository ships documentation and example declarations; the engine
itself (`VariantSchema.make` of `@effect/experimental` and the `Model`
preset layer of `@effect/sql`) is not part of the sources.  Engine
operations are therefore modelled from the spec (each such definition
carries a doc comment starting `Modelled from the spec:`), while every
concrete model (field lists, presets simulated in the sources, example
payloads) is translated directly from the source files.
-/

set_option maxHeartbeats 1000000

namespace VS

/-- A variant name, e.g. `"select"`, `"insert"`, `"api"`.  The sources use
plain strings for variant names. -/
abbrev Variant := String

/-- A declared field name. -/
abbrev FieldName := String

/-- Modelled from the spec: the `{variants, defaultVariant}` context fixed by
`VariantSchema.make` (the implementation of `make` is not in this
repository).  Spec section 3: a non-empty set of variant names together with
a designated default variant. -/
structure Ctx where
  variants : List Variant
  defaultVariant : Variant
deriving Repr, DecidableEq

/-- Modelled from the spec: a per-variant field entry, spec section 3 — the
type descriptor used in that variant, an optional output key (rename) and
whether the value is auto-managed (supplied by the engine at decode time,
spec section 4.5 edge-case policy).  `D` is the opaque descriptor type. -/
structure Entry (D : Type) where
  descriptor : D
  outputKey : Option String
  auto : Bool
deriving Repr, DecidableEq

/-- Modelled from the spec: a FieldSpec, spec section 3 — an ordered mapping
from variant name to entry; a variant absent from the mapping means the
field does not exist in that variant's schema. -/
structure FieldSpec (D : Type) where
  entries : List (Variant × Entry D)
deriving Repr, DecidableEq

/-- A field as written in a `Struct`/`Class` call in the sources: either a
bare descriptor (e.g. `baseUrl: Schema.String` in
`src/src/examples/environment-config.ts`) or an explicit field spec built by
one of the helpers. -/
inductive FieldValue (D : Type) where
  | bare (d : D)
  | spec (fs : FieldSpec D)
deriving Repr, DecidableEq

/-- First-match association-list lookup, the way the engine reads an entry
for a variant or a payload value for an output key. -/
def lookupA {α : Type} : List (String × α) → String → Option α
  | [], _ => none
  | (k, a) :: rest, q => if k = q then some a else lookupA rest q

/-- Modelled from the spec: the entry a FieldSpec declares for a variant
(spec section 3; `none` when the field does not exist in that variant). -/
def entryFor {D : Type} (fs : FieldSpec D) (v : Variant) : Option (Entry D) :=
  lookupA fs.entries v

/-- Modelled from the spec: the output key of a field in a variant — the
declared field name unless a rename is given (spec section 3). -/
def outputKeyOf {D : Type} (name : FieldName) (e : Entry D) : String :=
  e.outputKey.getD name

/-- Modelled from the spec: the `Field(perVariantMap)` helper of spec
section 4.1 (implementation not in this repository): an explicit mapping
from variants to descriptors, no renames, no auto management. -/
def Field {D : Type} (m : List (Variant × D)) : FieldValue D :=
  .spec ⟨m.map (fun p => (p.1, ⟨p.2, none, false⟩))⟩

/-- Modelled from the spec: `FieldOnly(variantList)(descriptor)` of spec
section 4.1 — the same descriptor shared across exactly the listed
variants. -/
def FieldOnly {D : Type} (vs : List Variant) (d : D) : FieldValue D :=
  .spec ⟨vs.map (fun v => (v, ⟨d, none, false⟩))⟩

/-- Modelled from the spec: `FieldExcept(variantList)(descriptor)` of spec
section 4.1 (implementation not in this repository): presence in
`allVariants − variantList`; fails if `variantList` is not a subset of the
declared variants or if it covers the full variant set (the field would be
unreachable). -/
def FieldExcept {D : Type} (ctx : Ctx) (vs : List Variant) (d : D) :
    Option (FieldValue D) :=
  if (∀ w ∈ vs, w ∈ ctx.variants) ∧ (∃ w ∈ ctx.variants, w ∉ vs) then
    some (.spec ⟨(ctx.variants.filter (fun u => decide (u ∉ vs))).map
      (fun v => (v, ⟨d, none, false⟩))⟩)
  else none

/-- Modelled from the spec: `fieldFromKey(perVariantKeyMap)(descriptor)` of
spec section 4.1 — presence in exactly the mapped variants, same descriptor
in all of them, output key taken per variant from the map. -/
def fieldFromKey {D : Type} (m : List (Variant × String)) (d : D) :
    FieldValue D :=
  .spec ⟨m.map (fun p => (p.1, ⟨d, some p.2, false⟩))⟩

/-- Modelled from the spec: how a `Struct` field declaration becomes a
FieldSpec.  A bare descriptor is present in every declared variant under the
declared name (the guides' examples, e.g. `email` in
`src/src/examples/variant-schema-advanced.ts`, show bare fields validated in
every variant); an explicit field spec is kept as written. -/
def liftField {D : Type} (ctx : Ctx) : FieldValue D → FieldSpec D
  | .bare d => ⟨ctx.variants.map (fun v => (v, ⟨d, none, false⟩))⟩
  | .spec fs => fs

/-- Modelled from the spec: a StructSpec, spec section 3 — the fixed context
together with the ordered mapping from field name to FieldSpec. -/
structure StructSpec (D : Type) where
  ctx : Ctx
  fields : List (FieldName × FieldSpec D)
deriving Repr, DecidableEq

/-- Modelled from the spec: the projection at the heart of the Extractor,
spec section 4.3 — iterate the fields in declaration order and, for each
field with an entry for the variant, emit the pair
`(outputKey, descriptor)`. -/
def extractList {D : Type} (fields : List (FieldName × FieldSpec D))
    (v : Variant) : List (String × D) :=
  fields.filterMap (fun p =>
    (entryFor p.2 v).map (fun e => (outputKeyOf p.1 e, e.descriptor)))

/-- Modelled from the spec: `extract(structSpec, variant)` of spec
section 4.3 (implementation not in this repository): the pure per-variant
record schema; calling with an undeclared variant fails immediately. -/
def extract {D : Type} (S : StructSpec D) (v : Variant) :
    Option (List (String × D)) :=
  if v ∈ S.ctx.variants then some (extractList S.fields v) else none

/-- Modelled from the spec: validity check one of `Struct` construction,
spec section 4.2 — every FieldSpec may reference only declared variants. -/
def declaredOK {D : Type} (ctx : Ctx)
    (fields : List (FieldName × FieldSpec D)) : Prop :=
  ∀ p ∈ fields, ∀ q ∈ p.2.entries, q.1 ∈ ctx.variants

/-- Modelled from the spec: validity check two of `Struct` construction,
spec section 4.2 — after renaming, no two fields collide on output key
within the same variant. -/
def collisionFree {D : Type} (ctx : Ctx)
    (fields : List (FieldName × FieldSpec D)) : Prop :=
  ∀ v ∈ ctx.variants, ((extractList fields v).map Prod.fst).Nodup

instance {D : Type} (ctx : Ctx) (fields : List (FieldName × FieldSpec D)) :
    Decidable (declaredOK ctx fields) := by
  unfold declaredOK; infer_instance

instance {D : Type} (ctx : Ctx) (fields : List (FieldName × FieldSpec D)) :
    Decidable (collisionFree ctx fields) := by
  unfold collisionFree; infer_instance

/-- Modelled from the spec: `Struct(fieldMapping)` of spec section 4.2
(implementation not in this repository): lift each field, then fail with a
definition error if a FieldSpec references an undeclared variant, two fields
collide on an output key within one variant, or the default variant's
extracted schema would be empty; otherwise return the immutable
StructSpec. -/
def Struct {D : Type} (ctx : Ctx) (fields : List (FieldName × FieldValue D)) :
    Except String (StructSpec D) :=
  let fs := fields.map (fun p => (p.1, liftField ctx p.2))
  if declaredOK ctx fs then
    if collisionFree ctx fs then
      if (extractList fs ctx.defaultVariant).isEmpty then
        .error "default variant extracts no fields"
      else .ok ⟨ctx, fs⟩
    else .error "output key collision"
  else .error "undeclared variant reference"

/-! ### Type descriptors and values

The spec treats a TypeDescriptor as an opaque validate/decode/encode
capability (sections 2, 3 and 6) and places the validation-constraint
mini-language (string patterns, numeric ranges) out of scope (section 1).
The descriptor language below covers the descriptor shapes the source files
use; refinements are carried as opaque tags whose codec is that of the base
descriptor, and nested struct descriptors are opaque object-shaped
descriptors. -/

/-- A JSON-like external/canonical value, as passed to the decode/encode
examples in the sources. -/
inductive Val where
  | vStr (s : String)
  | vNum (n : Int)
  | vBool (b : Bool)
  | vNull
  | vObj (kvs : List (String × Val))

/-- The descriptor shapes used by the source files: plain primitives,
`Schema.NonEmptyString`, string literals, the integer-encoded boolean,
opaque refinements (brands, patterns, numeric constraints — out of scope per
spec section 1), `Schema.optional` modelled as a nullable wrapper (the
spec's data model in section 3 has no key-absence notion), and opaque
nested struct descriptors. -/
inductive Descr where
  | str
  | num
  | bool
  | nonEmptyStr
  | litStr (ss : List String)
  | boolFromNum
  | refined (base : Descr) (tag : String)
  | nullable (base : Descr)
  | structD (fields : List (String × Descr))

/-- Whether a value is the null value. -/
def isNull : Val → Bool
  | .vNull => true
  | _ => false

/-- Whether a descriptor marks its field optional (`Schema.optional` in the
sources). -/
def isOptionalD : Descr → Bool
  | .nullable _ => true
  | _ => false

/-- Modelled from the spec: `validate` of the TypeDescriptor capability
(spec section 6), deciding whether a canonical value belongs to the
descriptor's type. -/
def validD : Descr → Val → Bool
  | .str, .vStr _ => true
  | .nonEmptyStr, .vStr s => decide (s ≠ "")
  | .num, .vNum _ => true
  | .bool, .vBool _ => true
  | .litStr ss, .vStr s => ss.contains s
  | .boolFromNum, .vBool _ => true
  | .refined base _, v => validD base v
  | .nullable base, v => isNull v || validD base v
  | .structD _, .vObj _ => true
  | _, _ => false

/-- Modelled from the spec: `decode` of the TypeDescriptor capability (spec
section 6) — turn an external representation into a canonical value, `none`
on rejection.  The integer-encoded boolean decodes 0/1 to false/true. -/
def decodeD : Descr → Val → Option Val
  | .str, .vStr s => some (.vStr s)
  | .nonEmptyStr, .vStr s => if s = "" then none else some (.vStr s)
  | .num, .vNum n => some (.vNum n)
  | .bool, .vBool b => some (.vBool b)
  | .litStr ss, .vStr s => if ss.contains s then some (.vStr s) else none
  | .boolFromNum, .vNum n =>
      if n = 0 then some (.vBool false)
      else if n = 1 then some (.vBool true) else none
  | .refined base _, v => decodeD base v
  | .nullable base, v => if isNull v then some .vNull else decodeD base v
  | .structD _, .vObj kvs => some (.vObj kvs)
  | _, _ => none

/-- Modelled from the spec: `encode` of the TypeDescriptor capability (spec
section 6) — turn a canonical value into the external representation,
modelled as possibly failing for non-total encode paths (spec section 7).
The integer-encoded boolean encodes false/true to 0/1. -/
def encodeD : Descr → Val → Option Val
  | .str, .vStr s => some (.vStr s)
  | .nonEmptyStr, .vStr s => if s = "" then none else some (.vStr s)
  | .num, .vNum n => some (.vNum n)
  | .bool, .vBool b => some (.vBool b)
  | .litStr ss, .vStr s => if ss.contains s then some (.vStr s) else none
  | .boolFromNum, .vBool b => some (.vNum (if b then 1 else 0))
  | .refined base _, v => encodeD base v
  | .nullable base, v => if isNull v then some .vNull else encodeD base v
  | .structD _, .vObj kvs => some (.vObj kvs)
  | _, _ => none

/-! ### Per-variant codecs -/

/-- Modelled from the spec: the decode step for one field (spec
section 4.4, and the section 4.5 edge-case policy): an auto-managed entry
always takes the engine-supplied refresh value `now`, overriding any
caller-supplied payload value; otherwise the payload value under the
field's output key is decoded with the entry's descriptor. -/
def decodeField (e : Entry Descr) (now : Val) (payload : List (String × Val))
    (name : FieldName) : Option Val :=
  if e.auto then some now
  else (lookupA payload (outputKeyOf name e)).bind (decodeD e.descriptor)

/-- Modelled from the spec: all-or-nothing decode of a variant payload over
an ordered field list (spec section 4.4): descriptor decode per field
present in the variant, then output-key to field-name de-rename. -/
def decodeAux (v : Variant) (now : Val) (payload : List (String × Val)) :
    List (FieldName × FieldSpec Descr) → Option (List (FieldName × Val))
  | [] => some []
  | (n, fs) :: rest =>
    match entryFor fs v with
    | none => decodeAux v now payload rest
    | some e =>
      match decodeField e now payload n, decodeAux v now payload rest with
      | some val, some r => some ((n, val) :: r)
      | _, _ => none

/-- Modelled from the spec: encode of a canonical entity into a variant's
representation (spec section 4.4): for each field present in the variant,
encode the entity's value with the entry's descriptor under the output
key.  The entity lists exactly the variant's fields in declaration
order. -/
def encodeAux (v : Variant) :
    List (FieldName × FieldSpec Descr) → List (FieldName × Val) →
    Option (List (String × Val))
  | [], [] => some []
  | [], _ :: _ => none
  | (n, fs) :: rest, x =>
    match entryFor fs v with
    | none => encodeAux v rest x
    | some e =>
      match x with
      | [] => none
      | (m, val) :: xr =>
        if m = n then
          match encodeD e.descriptor val, encodeAux v rest xr with
          | some w, some pr => some ((outputKeyOf n e, w) :: pr)
          | _, _ => none
        else none

/-- A canonical entity value for a variant: it lists exactly the fields
present in that variant, in declaration order, each value valid for the
entry's descriptor. -/
def canonicalFor (v : Variant) :
    List (FieldName × FieldSpec Descr) → List (FieldName × Val) → Bool
  | [], [] => true
  | [], _ :: _ => false
  | (n, fs) :: rest, x =>
    match entryFor fs v with
    | none => canonicalFor v rest x
    | some e =>
      match x with
      | [] => false
      | (m, val) :: xr =>
        decide (m = n) && validD e.descriptor val && canonicalFor v rest xr

/-- Whether no field of the list is auto-managed in the given variant.
Auto-managed fields are the representation-lossy ones: decode overrides
their supplied value (spec section 4.5 edge-case policy). -/
def autoFree (fields : List (FieldName × FieldSpec Descr)) (v : Variant) :
    Bool :=
  fields.all (fun p =>
    match entryFor p.2 v with
    | none => true
    | some e => !e.auto)

/-- Decode a variant payload against a StructSpec (spec section 4.4). -/
def decodeVariant (S : StructSpec Descr) (v : Variant) (now : Val)
    (payload : List (String × Val)) : Option (List (FieldName × Val)) :=
  decodeAux v now payload S.fields

/-- Encode a canonical entity for a variant against a StructSpec (spec
section 4.4). -/
def encodeVariant (S : StructSpec Descr) (v : Variant)
    (x : List (FieldName × Val)) : Option (List (String × Val)) :=
  encodeAux v S.fields x

/-! ### Memoized extraction -/

/-- A memo table for extraction results, keyed by (StructSpec, variant). -/
abbrev Cache (D : Type) :=
  List ((StructSpec D × Variant) × Option (List (String × D)))

/-- A cache is well formed when every stored result is the pure extraction
of its key — the invariant any sequence of memoized calls maintains. -/
def CacheWF {D : Type} (c : Cache D) : Prop :=
  ∀ p ∈ c, p.2 = extract p.1.1 p.1.2

instance {D : Type} [DecidableEq D] (c : Cache D) : Decidable (CacheWF c) := by
  unfold CacheWF; infer_instance

/-- Modelled from the spec: memoized extraction (spec sections 4.3 and 5) —
look the pair up in the published cache, otherwise compute the pure
extraction and publish it once. -/
def extractMemo {D : Type} [DecidableEq D] (c : Cache D) (S : StructSpec D)
    (v : Variant) : Option (List (String × D)) × Cache D :=
  match c.find? (fun p => decide (p.1 = (S, v))) with
  | some p => (p.2, c)
  | none => (extract S v, ((S, v), extract S v) :: c)

/-! ### Concrete models translated from the source files -/

/-- Translated from src/src/examples/environment-config.ts lines 5-8: the
environment variant context. -/
def envCtx : Ctx := ⟨["development", "staging", "production"], "development"⟩

/-- The field `FieldExcept("production")(Schema.Boolean)` of
src/src/examples/environment-config.ts line 19 denotes presence in the two
non-production variants. -/
def debugField : FieldValue Descr :=
  .spec ⟨[("development", ⟨.bool, none, false⟩),
          ("staging", ⟨.bool, none, false⟩)]⟩

/-- Translated from src/src/examples/environment-config.ts lines 11-25: the
ApiConfig struct fields. -/
def apiFields : List (FieldName × FieldValue Descr) :=
  [("baseUrl", .bare .str),
   ("timeout",
     Field [("development", .num), ("staging", .num), ("production", .num)]),
   ("retries", FieldOnly ["production", "staging"] .num),
   ("debug", debugField),
   ("rateLimitPerMinute",
     Field [("development", .num), ("staging", .num), ("production", .num)])]

/-- The ApiConfig StructSpec (the result of `Environment.Struct`,
src/src/examples/environment-config.ts lines 11-25). -/
def ApiConfig : StructSpec Descr :=
  ⟨envCtx, apiFields.map (fun p => (p.1, liftField envCtx p.2))⟩

/-- Translated from src/unnamed/part_002 lines 5-8: the SQL-model variant
context. -/
def sqlCtx : Ctx :=
  ⟨["select", "insert", "update", "json", "jsonCreate", "jsonUpdate"],
   "select"⟩

/-- Translated from src/unnamed/part_002 lines 11-16: the simulated
Generated preset — presence in select, update and json only. -/
def Generated (s : Descr) : FieldValue Descr :=
  Field [("select", s), ("update", s), ("json", s)]

/-- Translated from src/unnamed/part_002 lines 18-23: the simulated
Sensitive preset — presence in select, insert and update only. -/
def Sensitive (s : Descr) : FieldValue Descr :=
  Field [("select", s), ("insert", s), ("update", s)]

/-- Translated from src/unnamed/part_002 lines 25-29: the simulated
DateTimeInsert preset — entries for select, insert and json; the source
declares no update entry. -/
def DateTimeInsert : FieldValue Descr :=
  Field [("select", .str), ("insert", .str), ("json", .str)]

/-- Translated from src/unnamed/part_002 lines 31-36: the simulated
DateTimeUpdate preset — entries for select, insert, update and json; the
source declares an insert entry. -/
def DateTimeUpdate : FieldValue Descr :=
  Field [("select", .str), ("insert", .str), ("update", .str), ("json", .str)]

/-- The JSON-facing preferences descriptor of src/unnamed/part_002
lines 59-73. -/
def prefsJson : Descr :=
  .structD [("theme", .litStr ["light", "dark"]),
            ("notifications", .bool), ("language", .str)]

/-- Translated from src/unnamed/part_002 lines 39-79: the User model built
from the simulated presets. -/
def userFields5 : List (FieldName × FieldValue Descr) :=
  [("id", Generated (.refined .num "UserId")),
   ("email", .bare (.refined .str "emailPattern")),
   ("username", .bare .nonEmptyStr),
   ("passwordHash", Sensitive .str),
   ("firstName", .bare (.nullable .str)),
   ("lastName", .bare (.nullable .str)),
   ("preferences",
     Field [("select", .str), ("insert", .str), ("update", .str),
            ("json", prefsJson), ("jsonCreate", prefsJson),
            ("jsonUpdate", prefsJson)]),
   ("createdAt", DateTimeInsert),
   ("updatedAt", DateTimeUpdate)]

/-- The User StructSpec of src/unnamed/part_002 lines 39-79. -/
def User5 : StructSpec Descr :=
  ⟨sqlCtx, userFields5.map (fun p => (p.1, liftField sqlCtx p.2))⟩

/-- Whether an extracted schema contains a given output key. -/
def hasKey (l : List (String × Descr)) (k : String) : Bool :=
  l.any (fun p => decide (p.1 = k))

/-- Modelled from the spec: the Model-layer `Model.DateTimeUpdate` preset of
`@effect/sql`, whose implementation is not in this repository.  Spec
sections 4.5 and 8: the value is refreshed automatically on every update
regardless of a caller-supplied value, made explicit in the decode step —
here the auto flag on the update (and insert) entries.  Variant presence
follows the repository's simulated preset (src/unnamed/part_002
lines 31-36) and the insert examples that supply the field
(src/unnamed/part_001 lines 121-122). -/
def ModelDateTimeUpdate : FieldSpec Descr :=
  ⟨[("select", ⟨.str, none, false⟩), ("insert", ⟨.str, none, true⟩),
    ("update", ⟨.str, none, true⟩), ("json", ⟨.str, none, false⟩)]⟩

/-! ### Helper lemmas -/

theorem lookupA_append_of_none {α : Type} {l1 : List (String × α)}
    (l2 : List (String × α)) (q : String) (h : lookupA l1 q = none) :
    lookupA (l1 ++ l2) q = lookupA l2 q := by
  induction l1 with
  | nil => simp
  | cons hd tl ih =>
    obtain ⟨k, a⟩ := hd
    by_cases hk : k = q
    · simp [lookupA, hk] at h
    · simp only [lookupA, if_neg hk] at h
      simpa [lookupA, if_neg hk] using ih h

theorem lookupA_append_none {α : Type} {l1 l2 : List (String × α)}
    {q : String} (h1 : lookupA l1 q = none) (h2 : lookupA l2 q = none) :
    lookupA (l1 ++ l2) q = none := by
  rw [lookupA_append_of_none l2 q h1]; exact h2

theorem lookupA_map_const {α : Type} (e : α) (l : List String) (v : String)
    (hv : v ∈ l) : lookupA (l.map (fun u => (u, e))) v = some e := by
  induction l with
  | nil => cases hv
  | cons hd tl ih =>
    by_cases hk : hd = v
    · simp [lookupA, hk]
    · have : v ∈ tl := by
        cases hv with
        | head => exact absurd rfl hk
        | tail _ h => exact h
      simpa [lookupA, if_neg hk] using ih this

theorem lookupA_map_const_none {α : Type} (e : α) (l : List String)
    (v : String) (hv : v ∉ l) :
    lookupA (l.map (fun u => (u, e))) v = none := by
  induction l with
  | nil => rfl
  | cons hd tl ih =>
    have hk : hd ≠ v := fun h => hv (h ▸ List.mem_cons_self hd tl)
    have : v ∉ tl := fun h => hv (List.mem_cons_of_mem hd h)
    simpa [lookupA, if_neg hk] using ih this

theorem extractList_cons_none {D : Type} {fs : FieldSpec D} {v : Variant}
    (n : FieldName) (rest : List (FieldName × FieldSpec D))
    (hef : entryFor fs v = none) :
    extractList ((n, fs) :: rest) v = extractList rest v := by
  simp [extractList, List.filterMap_cons, hef]

theorem extractList_cons_some {D : Type} {fs : FieldSpec D} {v : Variant}
    {e : Entry D} (n : FieldName) (rest : List (FieldName × FieldSpec D))
    (hef : entryFor fs v = some e) :
    extractList ((n, fs) :: rest) v =
      (outputKeyOf n e, e.descriptor) :: extractList rest v := by
  simp [extractList, List.filterMap_cons, hef]

theorem mem_extractList {D : Type} {fields : List (FieldName × FieldSpec D)}
    {v : Variant} {n : FieldName} {fs : FieldSpec D} {e : Entry D}
    (hmem : (n, fs) ∈ fields) (hef : entryFor fs v = some e) :
    (outputKeyOf n e, e.descriptor) ∈ extractList fields v := by
  refine List.mem_filterMap.mpr ⟨(n, fs), hmem, ?_⟩
  simp [hef]

theorem entryFor_bare {D : Type} (ctx : Ctx) (d : D) (v : Variant)
    (hv : v ∈ ctx.variants) :
    entryFor (liftField ctx (FieldValue.bare d)) v =
      some ⟨d, none, false⟩ := by
  unfold liftField entryFor
  exact lookupA_map_const _ _ _ hv

theorem Struct_ok_inv {D : Type} {ctx : Ctx}
    {fields : List (FieldName × FieldValue D)} {S : StructSpec D}
    (h : Struct ctx fields = .ok S) :
    S.ctx = ctx ∧
      S.fields = fields.map (fun p => (p.1, liftField ctx p.2)) ∧
      collisionFree ctx S.fields := by
  simp only [Struct] at h
  split at h
  · split at h
    · split at h
      · cases h
      · cases h
        exact ⟨rfl, rfl, by assumption⟩
    · cases h
  · cases h

/-! ### C1: extraction projects exactly the fields present in a variant -/

theorem extractList_forall2 {D : Type}
    (fields : List (FieldName × FieldSpec D)) (v : Variant) :
    List.Forall₂
      (fun (p : FieldName × FieldSpec D) (q : String × D) =>
        ∃ e, entryFor p.2 v = some e ∧
          q.1 = outputKeyOf p.1 e ∧ q.2 = e.descriptor)
      (fields.filter (fun p => (entryFor p.2 v).isSome))
      (extractList fields v) := by
  induction fields with
  | nil => exact List.Forall₂.nil
  | cons hd rest ih =>
    obtain ⟨n, fs⟩ := hd
    cases hef : entryFor fs v with
    | none =>
      rw [extractList_cons_none n rest hef]
      simpa [List.filter_cons, hef] using ih
    | some e =>
      rw [extractList_cons_some n rest hef]
      simp only [List.filter_cons, hef, Option.isSome_some]
      exact List.Forall₂.cons ⟨e, hef, rfl, rfl⟩ ih

/-- C1: for every StructSpec `S` and declared variant `v`, `extract S v`
succeeds and returns exactly the fields of `S` whose FieldSpec has an entry
for `v`, in declaration order, each keyed by the field's output key for `v`
(the declared field name when no rename is given) with that entry's
descriptor. -/
theorem extract_projects_declared_fields {D : Type} (S : StructSpec D)
    (v : Variant) (hv : v ∈ S.ctx.variants) :
    ∃ l, extract S v = some l ∧
      List.Forall₂
        (fun (p : FieldName × FieldSpec D) (q : String × D) =>
          ∃ e, entryFor p.2 v = some e ∧
            q.1 = outputKeyOf p.1 e ∧ q.2 = e.descriptor)
        (S.fields.filter (fun p => (entryFor p.2 v).isSome)) l := by
  refine ⟨extractList S.fields v, ?_, extractList_forall2 S.fields v⟩
  simp [extract, hv]

/-- Witness for C1 at the ApiConfig model of
src/src/examples/environment-config.ts, variant `staging`. -/
theorem extract_projects_declared_fields_witness :
    ∃ l, extract ApiConfig "staging" = some l ∧
      List.Forall₂
        (fun (p : FieldName × FieldSpec Descr) (q : String × Descr) =>
          ∃ e, entryFor p.2 "staging" = some e ∧
            q.1 = outputKeyOf p.1 e ∧ q.2 = e.descriptor)
        (ApiConfig.fields.filter
          (fun p => (entryFor p.2 "staging").isSome)) l :=
  extract_projects_declared_fields ApiConfig "staging" (by decide)

/-! ### C7: extraction is deterministic, memoization-safe -/

theorem extractMemo_result {D : Type} [DecidableEq D] {c : Cache D}
    (hc : CacheWF c) (S : StructSpec D) (v : Variant) :
    (extractMemo c S v).1 = extract S v := by
  unfold extractMemo
  cases hfind : c.find? (fun p => decide (p.1 = (S, v))) with
  | none => rfl
  | some p =>
    have hp : p ∈ c := List.mem_of_find?_eq_some hfind
    have hkey : p.1 = (S, v) := by
      have := List.find?_some hfind
      simpa using this
    simpa [hkey] using hc p hp

/-- C7: two extractions of the same (StructSpec, variant) pair are
structurally equal, whatever well-formed memo states the two calls run
against: each memoized call returns the pure `extract S v` and preserves
cache well-formedness, so results depend neither on call order nor on prior
extractions. -/
theorem extract_deterministic {D : Type} [DecidableEq D] (c₁ c₂ : Cache D)
    (h₁ : CacheWF c₁) (h₂ : CacheWF c₂) (S : StructSpec D) (v : Variant) :
    (extractMemo c₁ S v).1 = extract S v ∧
      (extractMemo c₁ S v).1 = (extractMemo c₂ S v).1 ∧
      CacheWF (extractMemo c₁ S v).2 := by
  refine ⟨extractMemo_result h₁ S v, ?_, ?_⟩
  · rw [extractMemo_result h₁ S v, extractMemo_result h₂ S v]
  · unfold extractMemo
    cases hfind : c₁.find? (fun p => decide (p.1 = (S, v))) with
    | none =>
      intro p hp
      cases hp with
      | head => rfl
      | tail _ h => exact h₁ p h
    | some p => exact h₁

/-- Witness for C7 at a concrete two-field StructSpec over Nat descriptors,
an empty cache against a pre-populated one. -/
theorem extract_deterministic_witness :
    (extractMemo ([] : Cache Nat) ⟨⟨["a", "b"], "a"⟩,
        [("x", ⟨[("a", ⟨1, none, false⟩)]⟩)]⟩ "a").1 =
      extract ⟨⟨["a", "b"], "a"⟩, [("x", ⟨[("a", ⟨1, none, false⟩)]⟩)]⟩ "a" ∧
      (extractMemo ([] : Cache Nat) ⟨⟨["a", "b"], "a"⟩,
          [("x", ⟨[("a", ⟨1, none, false⟩)]⟩)]⟩ "a").1 =
        (extractMemo ([((⟨⟨["a", "b"], "a"⟩,
              [("x", ⟨[("a", ⟨1, none, false⟩)]⟩)]⟩, "a"),
            some [("x", 1)])] : Cache Nat) ⟨⟨["a", "b"], "a"⟩,
          [("x", ⟨[("a", ⟨1, none, false⟩)]⟩)]⟩ "a").1 ∧
      CacheWF (extractMemo ([] : Cache Nat) ⟨⟨["a", "b"], "a"⟩,
        [("x", ⟨[("a", ⟨1, none, false⟩)]⟩)]⟩ "a").2 :=
  extract_deterministic [] _ (by intro p hp; cases hp) (by decide) _ "a"

/-! ### C10: bare descriptor fields are present in every variant -/

/-- C10: a field declared as a bare descriptor (a plain schema, not wrapped
in a helper) in a successfully constructed Struct is present in the
extracted schema of every declared variant, under the declared field name,
with the same descriptor in each variant. -/
theorem bare_field_in_every_variant {D : Type} (ctx : Ctx)
    (fields : List (FieldName × FieldValue D)) (n : FieldName) (d : D)
    (S : StructSpec D) (v : Variant)
    (hmem : (n, FieldValue.bare d) ∈ fields)
    (hok : Struct ctx fields = .ok S) (hv : v ∈ ctx.variants) :
    ∃ l, extract S v = some l ∧ (n, d) ∈ l := by
  obtain ⟨hctx, hfields, -⟩ := Struct_ok_inv hok
  refine ⟨extractList S.fields v, ?_, ?_⟩
  · simp [extract, hctx, hv]
  · have hmem' : (n, liftField ctx (FieldValue.bare d)) ∈ S.fields := by
      rw [hfields]
      exact List.mem_map_of_mem (fun p => (p.1, liftField ctx p.2)) hmem
    have hef := entryFor_bare ctx d v hv
    have := mem_extractList hmem' hef
    simpa [outputKeyOf] using this

/-- Witness for C10 at the bare `baseUrl` field of the ApiConfig model
(src/src/examples/environment-config.ts lines 11-12), variant
`production`. -/
theorem bare_field_in_every_variant_witness :
    ∃ l, extract ApiConfig "production" = some l ∧
      ("baseUrl", Descr.str) ∈ l :=
  bare_field_in_every_variant envCtx apiFields "baseUrl" Descr.str ApiConfig
    "production" (List.mem_cons_self _ _) rfl (by decide)

/-! ### C8: output-key collisions make Struct construction fail -/

/-- C8: if two distinct fields of a Struct declaration (a two-element
sublist, in declaration order) map to the same output key within one
declared variant, construction fails with a definition error — it never
returns a StructSpec (so no field is silently dropped). -/
theorem collision_fails_construction {D : Type} (ctx : Ctx)
    (fields : List (FieldName × FieldValue D)) (n1 n2 : FieldName)
    (fv1 fv2 : FieldValue D) (v : Variant) (e1 e2 : Entry D)
    (hsub : [(n1, fv1), (n2, fv2)].Sublist fields)
    (hv : v ∈ ctx.variants)
    (h1 : entryFor (liftField ctx fv1) v = some e1)
    (h2 : entryFor (liftField ctx fv2) v = some e2)
    (hk : outputKeyOf n1 e1 = outputKeyOf n2 e2) :
    (Struct ctx fields).isOk = false := by
  have hnotfree : ¬ collisionFree ctx
      (fields.map (fun p => (p.1, liftField ctx p.2))) := by
    intro hfree
    have hnd := hfree v hv
    have hsub2 : [(n1, liftField ctx fv1), (n2, liftField ctx fv2)].Sublist
        (fields.map (fun p => (p.1, liftField ctx p.2))) := by
      simpa using hsub.map (fun p => (p.1, liftField ctx p.2))
    have hsub3 := (hsub2.filterMap (fun p =>
      (entryFor p.2 v).map (fun e => (outputKeyOf p.1 e, e.descriptor))))
    have he : extractList [(n1, liftField ctx fv1),
        (n2, liftField ctx fv2)] v =
        [(outputKeyOf n1 e1, e1.descriptor),
         (outputKeyOf n2 e2, e2.descriptor)] := by
      simp [extractList, List.filterMap_cons, h1, h2]
    rw [show (List.filterMap (fun p =>
        (entryFor p.2 v).map (fun e => (outputKeyOf p.1 e, e.descriptor)))
        [(n1, liftField ctx fv1), (n2, liftField ctx fv2)]) =
        extractList [(n1, liftField ctx fv1),
          (n2, liftField ctx fv2)] v from rfl, he] at hsub3
    have hkeys : ([outputKeyOf n1 e1, outputKeyOf n2 e2]).Sublist
        ((extractList (fields.map (fun p => (p.1, liftField ctx p.2)))
          v).map Prod.fst) := by
      simpa [extractList, List.filterMap_map] using hsub3.map Prod.fst
    have := hnd.sublist hkeys
    simp [List.nodup_cons] at this
    exact this hk
  simp only [Struct]
  split
  all_goals rfl

/-- Witness for C8: two fields renamed to the same output key `x` in the
`development` variant over the environment context fail construction. -/
theorem collision_fails_construction_witness :
    (Struct envCtx
      [("a", fieldFromKey [("development", "x")] Descr.str),
       ("b", fieldFromKey [("development", "x")] Descr.num)]).isOk = false :=
  collision_fails_construction envCtx
    [("a", fieldFromKey [("development", "x")] Descr.str),
     ("b", fieldFromKey [("development", "x")] Descr.num)]
    "a" "b"
    (fieldFromKey [("development", "x")] Descr.str)
    (fieldFromKey [("development", "x")] Descr.num)
    "development" ⟨Descr.str, some "x", false⟩ ⟨Descr.num, some "x", false⟩
    (List.Sublist.refl _) (by decide) rfl rfl rfl

/-! ### C9: FieldExcept over the full variant set fails, proper subsets
yield the complement -/

/-- C9: `FieldExcept` applied with a variant list covering the full declared
variant set fails to construct the field; applied with a subset of the
declared variants that misses at least one of them it succeeds, and the
resulting field is present with the same descriptor in exactly the
complement variants. -/
theorem field_except_complement {D : Type} (ctx : Ctx) (vs : List Variant)
    (d : D) :
    ((∀ w ∈ ctx.variants, w ∈ vs) → FieldExcept ctx vs d = none) ∧
      ((∀ w ∈ vs, w ∈ ctx.variants) → ∀ w₀ ∈ ctx.variants, w₀ ∉ vs →
        ∃ fs, FieldExcept ctx vs d = some (FieldValue.spec fs) ∧
          ∀ v, entryFor fs v =
            if v ∈ ctx.variants ∧ v ∉ vs then
              some ⟨d, none, false⟩ else none) := by
  constructor
  · intro hfull
    unfold FieldExcept
    rw [if_neg]
    rintro ⟨-, w, hw, hwvs⟩
    exact hwvs (hfull w hw)
  · intro hsub w₀ hw₀ hw₀vs
    refine ⟨⟨(ctx.variants.filter (fun u => decide (u ∉ vs))).map
      (fun v => (v, ⟨d, none, false⟩))⟩, ?_, ?_⟩
    · unfold FieldExcept
      rw [if_pos ⟨hsub, w₀, hw₀, hw₀vs⟩]
    · intro v
      by_cases hv : v ∈ ctx.variants ∧ v ∉ vs
      · rw [if_pos hv]
        unfold entryFor
        exact lookupA_map_const _ _ _ (by
          simp only [List.mem_filter, decide_eq_true_eq]
          exact hv)
      · rw [if_neg hv]
        unfold entryFor
        exact lookupA_map_const_none _ _ _ (by
          simp only [List.mem_filter, decide_eq_true_eq]
          exact hv)

/-- Witness for C9 over the environment variant set
(src/src/examples/environment-config.ts): excluding all three variants
fails; excluding `production` alone (line 19) yields presence in exactly
`development` and `staging`. -/
theorem field_except_complement_witness :
    FieldExcept envCtx ["development", "staging", "production"]
        Descr.bool = none ∧
      ∃ fs, FieldExcept envCtx ["production"] Descr.bool =
          some (FieldValue.spec fs) ∧
        ∀ v, entryFor fs v =
          if v ∈ envCtx.variants ∧ v ∉ ["production"] then
            some ⟨Descr.bool, none, false⟩ else none :=
  ⟨(field_except_complement envCtx
      ["development", "staging", "production"] Descr.bool).1 (by decide),
   (field_except_complement envCtx ["production"] Descr.bool).2
     (by decide) "development" (by decide) (by decide)⟩

/-! ### C6: decode after encode is the identity on canonical entities -/

theorem isNull_iff (v : Val) : isNull v = true ↔ v = .vNull := by
  cases v <;> simp [isNull]

theorem decodeD_vNull : ∀ (d : Descr) (val : Val),
    decodeD d .vNull = some val → val = .vNull
  | .refined base _, val, h =>
      decodeD_vNull base val (by simpa [decodeD] using h)
  | .nullable _, val, h => by
      simp [decodeD, isNull] at h
      exact h.symm
  | .str, _, h => by simp [decodeD] at h
  | .num, _, h => by simp [decodeD] at h
  | .bool, _, h => by simp [decodeD] at h
  | .nonEmptyStr, _, h => by simp [decodeD] at h
  | .litStr _, _, h => by simp [decodeD] at h
  | .boolFromNum, _, h => by simp [decodeD] at h
  | .structD _, _, h => by simp [decodeD] at h

/-- Round-trip law for the descriptor language: a value valid for a
descriptor encodes successfully and decodes back to itself. -/
theorem descr_rt : ∀ (d : Descr) (val : Val), validD d val = true →
    ∃ w, encodeD d val = some w ∧ decodeD d w = some val
  | .str, .vStr s, _ => ⟨.vStr s, rfl, rfl⟩
  | .num, .vNum n, _ => ⟨.vNum n, rfl, rfl⟩
  | .bool, .vBool b, _ => ⟨.vBool b, rfl, rfl⟩
  | .nonEmptyStr, .vStr s, h => by
      have hs : ¬ s = "" := by simpa [validD] using h
      exact ⟨.vStr s, by simp [encodeD, hs], by simp [decodeD, hs]⟩
  | .litStr ss, .vStr s, h => by
      have hs : ss.contains s = true := by simpa [validD] using h
      have hmem : s ∈ ss := by simpa using hs
      exact ⟨.vStr s, by simp [encodeD, hs, hmem],
        by simp [decodeD, hs, hmem]⟩
  | .boolFromNum, .vBool b, _ => by
      cases b
      · exact ⟨.vNum 0, rfl, by simp [decodeD]⟩
      · exact ⟨.vNum 1, rfl, by simp [decodeD]⟩
  | .refined base t, val, h => by
      obtain ⟨w, he, hd⟩ := descr_rt base val (by simpa [validD] using h)
      exact ⟨w, by simpa [encodeD] using he, by simpa [decodeD] using hd⟩
  | .nullable base, val, h => by
      by_cases hn : isNull val = true
      · rw [isNull_iff] at hn
        subst hn
        exact ⟨.vNull, by simp [encodeD, isNull], by simp [decodeD, isNull]⟩
      · have hb : validD base val = true := by
          simp only [validD, Bool.or_eq_true] at h
          exact h.resolve_left hn
        obtain ⟨w, he, hd⟩ := descr_rt base val hb
        refine ⟨w, by simp [encodeD, hn]; exact he, ?_⟩
        by_cases hw : isNull w = true
        · rw [isNull_iff] at hw
          subst hw
          have hval := decodeD_vNull base val hd
          rw [hval] at hn
          simp [isNull] at hn
        · simp [decodeD, hw]
          exact hd
  | .structD fs, .vObj kvs, _ => ⟨.vObj kvs, rfl, rfl⟩
  | .str, .vNum _, h => by simp [validD] at h
  | .str, .vBool _, h => by simp [validD] at h
  | .str, .vNull, h => by simp [validD] at h
  | .str, .vObj _, h => by simp [validD] at h
  | .num, .vStr _, h => by simp [validD] at h
  | .num, .vBool _, h => by simp [validD] at h
  | .num, .vNull, h => by simp [validD] at h
  | .num, .vObj _, h => by simp [validD] at h
  | .bool, .vStr _, h => by simp [validD] at h
  | .bool, .vNum _, h => by simp [validD] at h
  | .bool, .vNull, h => by simp [validD] at h
  | .bool, .vObj _, h => by simp [validD] at h
  | .nonEmptyStr, .vNum _, h => by simp [validD] at h
  | .nonEmptyStr, .vBool _, h => by simp [validD] at h
  | .nonEmptyStr, .vNull, h => by simp [validD] at h
  | .nonEmptyStr, .vObj _, h => by simp [validD] at h
  | .litStr _, .vNum _, h => by simp [validD] at h
  | .litStr _, .vBool _, h => by simp [validD] at h
  | .litStr _, .vNull, h => by simp [validD] at h
  | .litStr _, .vObj _, h => by simp [validD] at h
  | .boolFromNum, .vStr _, h => by simp [validD] at h
  | .boolFromNum, .vNum _, h => by simp [validD] at h
  | .boolFromNum, .vNull, h => by simp [validD] at h
  | .boolFromNum, .vObj _, h => by simp [validD] at h
  | .structD _, .vStr _, h => by simp [validD] at h
  | .structD _, .vNum _, h => by simp [validD] at h
  | .structD _, .vBool _, h => by simp [validD] at h
  | .structD _, .vNull, h => by simp [validD] at h

/-- A canonical entity encodes successfully. -/
theorem encode_total (v : Variant) :
    ∀ (fields : List (FieldName × FieldSpec Descr))
      (x : List (FieldName × Val)), canonicalFor v fields x = true →
      ∃ p, encodeAux v fields x = some p
  | [], [], _ => ⟨[], rfl⟩
  | [], _ :: _, h => by simp [canonicalFor] at h
  | (n, fs) :: rest, x, h => by
      cases hef : entryFor fs v with
      | none =>
        have h' : canonicalFor v rest x = true := by
          simpa [canonicalFor, hef] using h
        obtain ⟨p, hp⟩ := encode_total v rest x h'
        exact ⟨p, by simp [encodeAux, hef, hp]⟩
      | some e =>
        cases x with
        | nil => simp [canonicalFor, hef] at h
        | cons hd xr =>
          obtain ⟨m, val⟩ := hd
          have h' : m = n ∧ validD e.descriptor val = true ∧
              canonicalFor v rest xr = true := by
            simpa [canonicalFor, hef, Bool.and_eq_true, and_assoc] using h
          obtain ⟨hm, hval, hrest⟩ := h'
          obtain ⟨w, he, -⟩ := descr_rt e.descriptor val hval
          obtain ⟨pr, hpr⟩ := encode_total v rest xr hrest
          exact ⟨(outputKeyOf n e, w) :: pr,
            by simp [encodeAux, hef, hm, he, hpr]⟩

/-- Core round-trip induction: decoding the encoded payload (behind any
prefix of unrelated keys) restores the canonical entity, provided the
variant's output keys are collision-free and no field is auto-managed in
the variant. -/
theorem roundtrip_aux (v : Variant) (now : Val) :
    ∀ (fields : List (FieldName × FieldSpec Descr))
      (x : List (FieldName × Val)) (p pre : List (String × Val)),
      canonicalFor v fields x = true →
      autoFree fields v = true →
      ((extractList fields v).map Prod.fst).Nodup →
      (∀ k ∈ (extractList fields v).map Prod.fst, lookupA pre k = none) →
      encodeAux v fields x = some p →
      decodeAux v now (pre ++ p) fields = some x
  | [], [], p, pre, _, _, _, _, he => by
      have : p = [] := by simpa [encodeAux] using he.symm
      subst this
      rfl
  | [], _ :: _, p, pre, hc, _, _, _, _ => by simp [canonicalFor] at hc
  | (n, fs) :: rest, x, p, pre, hc, ha, hnd, hpre, he => by
      cases hef : entryFor fs v with
      | none =>
        have hc' : canonicalFor v rest x = true := by
          simpa [canonicalFor, hef] using hc
        have ha' : autoFree rest v = true := by
          simpa [autoFree, hef] using ha
        have hnd' : ((extractList rest v).map Prod.fst).Nodup := by
          rwa [extractList_cons_none n rest hef] at hnd
        have hpre' : ∀ k ∈ (extractList rest v).map Prod.fst,
            lookupA pre k = none := by
          rwa [extractList_cons_none n rest hef] at hpre
        have he' : encodeAux v rest x = some p := by
          simpa [encodeAux, hef] using he
        have ih := roundtrip_aux v now rest x p pre hc' ha' hnd' hpre' he'
        simpa [decodeAux, hef] using ih
      | some e =>
        cases x with
        | nil => simp [canonicalFor, hef] at hc
        | cons hd xr =>
          obtain ⟨m, val⟩ := hd
          have hc' : m = n ∧ validD e.descriptor val = true ∧
              canonicalFor v rest xr = true := by
            simpa [canonicalFor, hef, Bool.and_eq_true, and_assoc] using hc
          obtain ⟨hm, hval, hrest⟩ := hc'
          subst hm
          have ha2 : e.auto = false ∧ autoFree rest v = true := by
            simpa [autoFree, hef] using ha
          rw [extractList_cons_some m rest hef] at hnd hpre
          simp only [List.map_cons, List.nodup_cons] at hnd
          obtain ⟨hknotin, hnd'⟩ := hnd
          obtain ⟨w, hew, hdw⟩ := descr_rt e.descriptor val hval
          have he' : ∃ pr, encodeAux v rest xr = some pr ∧
              p = (outputKeyOf m e, w) :: pr := by
            rw [encodeAux] at he
            simp only [hef, if_pos rfl, hew] at he
            cases hrec : encodeAux v rest xr with
            | none => rw [hrec] at he; cases he
            | some pr =>
              rw [hrec] at he
              exact ⟨pr, rfl, by cases he; rfl⟩
          obtain ⟨pr, hpr, hp⟩ := he'
          subst hp
          have hprehead : lookupA pre (outputKeyOf m e) = none :=
            hpre (outputKeyOf m e) (by simp)
          have hlook : lookupA (pre ++ (outputKeyOf m e, w) :: pr)
              (outputKeyOf m e) = some w := by
            rw [lookupA_append_of_none _ _ hprehead]
            simp [lookupA]
          have hpre' : ∀ k ∈ (extractList rest v).map Prod.fst,
              lookupA (pre ++ [(outputKeyOf m e, w)]) k = none := by
            intro k hk
            refine lookupA_append_none (hpre k (by simp [hk])) ?_
            have hne : outputKeyOf m e ≠ k := by
              intro hkk
              exact hknotin (hkk ▸ hk)
            simp [lookupA, hne]
          have ih := roundtrip_aux v now rest xr pr
            (pre ++ [(outputKeyOf m e, w)]) hrest ha2.2 hnd' hpre' hpr
          rw [List.append_assoc] at ih
          simp only [List.cons_append, List.nil_append] at ih
          rw [decodeAux]
          simp only [hef]
          rw [decodeField, if_neg (by simp [ha2.1]), hlook]
          simp only [ih]
          simp [hdw]

/-- C6: for a constructed StructSpec, a declared variant none of whose
fields are auto-managed (auto-managed fields are the representation-lossy
ones, overridden at decode time), and a canonical entity value for that
variant, encoding for the variant and decoding the result yields the
entity back unchanged — decode after encode is the identity. -/
theorem decode_encode_roundtrip (ctx : Ctx)
    (fields : List (FieldName × FieldValue Descr)) (S : StructSpec Descr)
    (v : Variant) (x : List (FieldName × Val)) (now : Val)
    (hok : Struct ctx fields = .ok S)
    (hv : v ∈ ctx.variants)
    (hx : canonicalFor v S.fields x = true)
    (hauto : autoFree S.fields v = true) :
    ∃ p, encodeVariant S v x = some p ∧
      decodeVariant S v now p = some x := by
  obtain ⟨hctx, hfields, hfree⟩ := Struct_ok_inv hok
  obtain ⟨p, hp⟩ := encode_total v S.fields x hx
  refine ⟨p, hp, ?_⟩
  have hnd : ((extractList S.fields v).map Prod.fst).Nodup :=
    hfree v (hctx ▸ hv)
  have := roundtrip_aux v now S.fields x p [] hx hauto hnd
    (by intro k _; rfl) hp
  simpa [decodeVariant] using this

/-- Witness for C6: the development configuration value of
src/src/examples/environment-config.ts lines 33-38 encodes for the
`development` variant and decodes back to itself. -/
theorem decode_encode_roundtrip_witness :
    ∃ p, encodeVariant ApiConfig "development"
        [("baseUrl", .vStr "http://localhost:3000/api"),
         ("timeout", .vNum 5000), ("debug", .vBool true),
         ("rateLimitPerMinute", .vNum 100)] = some p ∧
      decodeVariant ApiConfig "development" Val.vNull p =
        some [("baseUrl", .vStr "http://localhost:3000/api"),
              ("timeout", .vNum 5000), ("debug", .vBool true),
              ("rateLimitPerMinute", .vNum 100)] :=
  decode_encode_roundtrip envCtx apiFields ApiConfig "development"
    [("baseUrl", .vStr "http://localhost:3000/api"),
     ("timeout", .vNum 5000), ("debug", .vBool true),
     ("rateLimitPerMinute", .vNum 100)] Val.vNull rfl (by decide) rfl rfl

/-! ### C2: the DateTimeUpdate preset overrides caller-supplied values -/

theorem decode_auto_field (post : List (FieldName × FieldSpec Descr))
    (n : FieldName) (now : Val) (payload : List (String × Val)) :
    ∀ (pre : List (FieldName × FieldSpec Descr)) (r : List (FieldName × Val)),
      n ∉ pre.map Prod.fst →
      decodeAux "update" now payload
        (pre ++ (n, ModelDateTimeUpdate) :: post) = some r →
      lookupA r n = some now
  | [], r, _, hdec => by
      rw [List.nil_append, decodeAux] at hdec
      simp only [show entryFor ModelDateTimeUpdate "update" =
        some ⟨.str, none, true⟩ from rfl] at hdec
      simp only [decodeField, if_pos rfl] at hdec
      cases hrec : decodeAux "update" now payload post with
      | none => rw [hrec] at hdec; cases hdec
      | some r' =>
        rw [hrec] at hdec
        cases hdec
        simp [lookupA]
  | (n', fs') :: tl, r, hn, hdec => by
      have hne : n' ≠ n := fun hh => hn (by simp [hh])
      have htl : n ∉ tl.map Prod.fst := fun hh => hn (by simp [hh])
      rw [List.cons_append, decodeAux] at hdec
      cases hef : entryFor fs' "update" with
      | none =>
        simp only [hef] at hdec
        exact decode_auto_field post n now payload tl r htl hdec
      | some e =>
        simp only [hef] at hdec
        cases hdf : decodeField e now payload n' with
        | none => rw [hdf] at hdec; cases hdec
        | some val =>
          rw [hdf] at hdec
          cases hrec : decodeAux "update" now payload
              (tl ++ (n, ModelDateTimeUpdate) :: post) with
          | none => rw [hrec] at hdec; cases hdec
          | some r' =>
            rw [hrec] at hdec
            cases hdec
            have := decode_auto_field post n now payload tl r' htl hrec
            simpa [lookupA, hne] using this

/-- C2: in any model whose field `n` uses the Model-layer DateTimeUpdate
preset, decoding an update-variant payload that carries an explicit
caller-supplied value for `n` yields an entity whose `n` holds the engine's
refresh-time value `now`; whenever the refresh time differs from the
supplied value, the decoded field differs from the supplied value — the
auto-refresh wins. -/
theorem datetime_update_refreshes (pre post : List (FieldName × FieldSpec Descr))
    (n : FieldName) (now supplied : Val) (payload : List (String × Val))
    (r : List (FieldName × Val))
    (hn : n ∉ pre.map Prod.fst)
    (hsup : lookupA payload n = some supplied)
    (hdec : decodeAux "update" now payload
      (pre ++ (n, ModelDateTimeUpdate) :: post) = some r) :
    lookupA r n = some now ∧
      (now ≠ supplied → ¬ lookupA r n = some supplied) := by
  have h1 := decode_auto_field post n now payload pre r hn hdec
  refine ⟨h1, fun hne hcontra => ?_⟩
  rw [h1] at hcontra
  exact hne (Option.some.inj hcontra)

/-- Witness for C2: the spec's section 8 scenario — an update payload with
id 1, name `x` and an explicit `updatedAt` of `2020-01-01` decodes to an
entity whose `updatedAt` is the refresh-time value, not `2020-01-01`. -/
theorem datetime_update_refreshes_witness :
    lookupA [("id", Val.vNum 1), ("name", Val.vStr "x"),
        ("updatedAt", Val.vStr "2026-02-03T00:00:00Z")] "updatedAt" =
      some (Val.vStr "2026-02-03T00:00:00Z") ∧
      (Val.vStr "2026-02-03T00:00:00Z" ≠ Val.vStr "2020-01-01" →
        ¬ lookupA [("id", Val.vNum 1), ("name", Val.vStr "x"),
            ("updatedAt", Val.vStr "2026-02-03T00:00:00Z")] "updatedAt" =
          some (Val.vStr "2020-01-01")) :=
  datetime_update_refreshes
    [("id", liftField sqlCtx (Generated (.refined .num "UserId"))),
     ("name", liftField sqlCtx (.bare .nonEmptyStr))]
    [] "updatedAt" (Val.vStr "2026-02-03T00:00:00Z")
    (Val.vStr "2020-01-01")
    [("id", .vNum 1), ("name", .vStr "x"),
     ("updatedAt", .vStr "2020-01-01")]
    [("id", Val.vNum 1), ("name", Val.vStr "x"),
     ("updatedAt", Val.vStr "2026-02-03T00:00:00Z")]
    (by simp) rfl rfl

/-! ### C3/C4: the simulated timestamp presets' variant presence -/

/-- Counterexample for C3: at the User model of src/unnamed/part_002, the
DateTimeInsert field `createdAt` is not present in all four of the select,
insert, update and json extracted schemas — it is missing from the update
one (the preset declares no update entry). -/
theorem datetime_insert_counterexample :
    ¬(hasKey (extractList User5.fields "select") "createdAt" = true ∧
      hasKey (extractList User5.fields "insert") "createdAt" = true ∧
      hasKey (extractList User5.fields "update") "createdAt" = true ∧
      hasKey (extractList User5.fields "json") "createdAt" = true) := by
  decide

/-- C3 (amended): the DateTimeInsert preset field is present in the select,
insert and json extracted schemas of its model and absent from the update
extracted schema — the preset declares no update entry
(src/unnamed/part_002 lines 25-29; src/unnamed/part_000 line 99 documents
that the update type has no createdAt). -/
theorem datetime_insert_variants :
    hasKey (extractList User5.fields "select") "createdAt" = true ∧
      hasKey (extractList User5.fields "insert") "createdAt" = true ∧
      hasKey (extractList User5.fields "update") "createdAt" = false ∧
      hasKey (extractList User5.fields "json") "createdAt" = true ∧
      entryFor (liftField sqlCtx DateTimeInsert) "update" = none :=
  ⟨rfl, rfl, rfl, rfl, rfl⟩

/-- Counterexample for C4: at the User model of src/unnamed/part_002, the
DateTimeUpdate field `updatedAt` is not absent from the insert extracted
schema — the preset declares an insert entry, and the repository's insert
examples supply the field. -/
theorem datetime_update_counterexample :
    ¬(hasKey (extractList User5.fields "insert") "updatedAt" = false ∧
      hasKey (extractList User5.fields "select") "updatedAt" = true ∧
      hasKey (extractList User5.fields "update") "updatedAt" = true ∧
      hasKey (extractList User5.fields "json") "updatedAt" = true) := by
  decide

/-- C4 (amended): the DateTimeUpdate preset field is present in all four of
the select, insert, update and json extracted schemas of its model
(src/unnamed/part_002 lines 31-36 declares entries for all four). -/
theorem datetime_update_variants :
    hasKey (extractList User5.fields "select") "updatedAt" = true ∧
      hasKey (extractList User5.fields "insert") "updatedAt" = true ∧
      hasKey (extractList User5.fields "update") "updatedAt" = true ∧
      hasKey (extractList User5.fields "json") "updatedAt" = true ∧
      entryFor (liftField sqlCtx DateTimeUpdate) "insert" =
        some ⟨.str, none, false⟩ :=
  ⟨rfl, rfl, rfl, rfl, rfl⟩

/-! ### C5: Generated fields are absent at insert, present elsewhere -/

/-- C5: for every descriptor `d`, a field declared with the Generated
preset has no entry for the insert variant and carries exactly `d` (no
optionality added, so the field is required whenever `d` is) in the select,
update and json variants; at the User model of src/unnamed/part_002 the
Generated `id` field is accordingly absent from the insert extracted schema
and present — with its non-optional descriptor — in the select, update and
json extracted schemas. -/
theorem generated_field_variants (d : Descr) :
    entryFor (liftField sqlCtx (Generated d)) "insert" = none ∧
      entryFor (liftField sqlCtx (Generated d)) "select" =
        some ⟨d, none, false⟩ ∧
      entryFor (liftField sqlCtx (Generated d)) "update" =
        some ⟨d, none, false⟩ ∧
      entryFor (liftField sqlCtx (Generated d)) "json" =
        some ⟨d, none, false⟩ ∧
      hasKey (extractList User5.fields "insert") "id" = false ∧
      hasKey (extractList User5.fields "select") "id" = true ∧
      hasKey (extractList User5.fields "update") "id" = true ∧
      hasKey (extractList User5.fields "json") "id" = true ∧
      lookupA (extractList User5.fields "select") "id" =
        some (.refined .num "UserId") ∧
      isOptionalD (.refined .num "UserId") = false :=
  ⟨rfl, rfl, rfl, rfl, rfl, rfl, rfl, rfl, rfl, rfl⟩

/-- Witness for C5 at the concrete descriptor `Descr.num`. -/
theorem generated_field_variants_witness :
    entryFor (liftField sqlCtx (Generated Descr.num)) "insert" = none ∧
      entryFor (liftField sqlCtx (Generated Descr.num)) "select" =
        some ⟨Descr.num, none, false⟩ :=
  ⟨(generated_field_variants Descr.num).1,
   (generated_field_variants Descr.num).2.1⟩

end VS
